import Mathlib

/-!
Verification development for `value_investing/fundamental_analysis_generator.py`.

The Python source is shallowly embedded:

* a pandas `Series` becomes an ordered association list from period dates to
  optional rational cell values (a `none` cell is a NaN);
* a statement DataFrame becomes a column list plus named rows;
* each per-ratio try/except block becomes an `Option Series` (the `except`
  branch that assigns `None` is `none`);
* the one local variable the `except` branches forget to rebind (`prices`)
  makes the final `return` raise, which is modelled by `FAResult.exn`;
* `dataset_generator` becomes a fold over the ticker list carrying the batch,
  the aggregate, the pending incomplete list and the two output files, with
  write operations numbered so that storage failures can be injected.
-/

unseal Rat.mul Rat.inv Rat.add Rat.sub

namespace VI

/-- Fiscal-period-end dates and trading days, as abstract day numbers. -/
abbrev Date := Nat

/-- Cell values.  Rationals stand in for the floats of the source. -/
abbrev Val := Rat

/-- A pandas `Series`: ordered association list from dates to cells; a `none`
cell is a NaN. -/
abbrev Series := List (Date × Option Val)

/-- The index of a series. -/
def keysOf (s : Series) : List Date := s.map Prod.fst

/-- Value of a series at a date: `none` when the date is absent from the index
or the cell there is NaN. -/
def sget (s : Series) (d : Date) : Option Val := (List.lookup d s).join

/-- Combination of two aligned cells; NaN-propagating, as pandas arithmetic. -/
def applyOpt (f : Val → Val → Val) : Option Val → Option Val → Option Val
  | some a, some b => some (f a b)
  | _, _ => none

/-- Index-aligned binary arithmetic on two series: pandas aligns on the union
of the two indexes and fills NaN where either operand is missing. -/
def alignWith (f : Val → Val → Val) (s t : Series) : Series :=
  ((keysOf s ++ keysOf t).dedup).map (fun d => (d, applyOpt f (sget s d) (sget t d)))

/-- Insertion into a list kept in descending key order. -/
def insertDesc (a : Date × Option Val) : Series → Series
  | [] => [a]
  | b :: l => if b.1 ≤ a.1 then a :: b :: l else b :: insertDesc a l

/-- `sort_index(inplace=True, ascending=False)`: most-recent-first order. -/
def sortDesc (s : Series) : Series := s.foldr insertDesc []

/-- Decidable check that a series is in descending (most-recent-first) order. -/
def sortedDescB : Series → Bool
  | [] => true
  | [_] => true
  | a :: b :: l => decide (b.1 ≤ a.1) && sortedDescB (b :: l)

/-- A financial statement: line items (rows) over period-end columns. -/
structure Stmt where
  cols : List Date
  rows : List (String × List (Option Val))
deriving DecidableEq

/-- `df.loc[item]`: the item's row as a date-indexed series; `none` models the
KeyError raised when the line item is absent. -/
def Stmt.loc (st : Stmt) (item : String) : Option Series :=
  (List.lookup item st.rows).map (fun vs => st.cols.zip vs)

/-- `df.iloc[:, :-1]`: drop the last column. -/
def Stmt.dropLastCol (st : Stmt) : Stmt := ⟨st.cols.dropLast, st.rows⟩

/-- `df.size`: number of cells. -/
def Stmt.size (st : Stmt) : Nat := st.cols.length * st.rows.length

/-- Per-ticker upstream data: the yfinance statements and the daily closes. -/
structure Tkr where
  balance_sheet : Stmt
  incomestmt : Stmt
  cashflow : Stmt
  quarterly_balance_sheet : Stmt
  quarterly_income_stmt : Stmt
  quarterly_cashflow : Stmt
  market : List (Date × Val)
deriving DecidableEq

/-- `get_historical_price`: the first `Close` of `history(start, start+4)`,
i.e. the first trading day in the four-calendar-day window `[start, start+4)`;
`none` models the IndexError `iloc[0, 0]` raises on an empty window. -/
def get_historical_price (market : List (Date × Val)) (start : Date) : Option Val :=
  ((market.filter (fun p => decide (start ≤ p.1) && decide (p.1 < start + 4))).head?).map Prod.snd

/-- The dict returned by `fundamental_analysis`.  A `none` ratio is one whose
try-block failed and was downgraded to `None`. -/
structure FAOut where
  eps : Option Series
  per : Option Series
  ebitda : Option Series
  pbv : Option Series
  solvency : Option Series
  roe : Option Series
  fcf : Option Series
  prices : Series
  shares : Option Series
  incomplete : Bool
deriving DecidableEq

/-- Outcome of `fundamental_analysis`.  `noData` is the early `return None` on
an empty statement.  `exn` is an exception escaping the call: the `return`
statement reads the local `prices`, which is never bound when the EPS block or
any price lookup failed (the PER except-branch only rebinds `per`), so the
return raises UnboundLocalError. -/
inductive FAResult
  | noData
  | exn
  | ok (r : FAOut)
deriving DecidableEq

/-- Projection of a normally returned record. -/
def FAResult.out? : FAResult → Option FAOut
  | .ok r => some r
  | _ => none

/-- Whether the call returned a record (as opposed to `None` or a raise). -/
def FAResult.isOk : FAResult → Bool
  | .ok _ => true
  | _ => false

/-- The EPS try-block (lines 39-50): net income over ordinary shares,
most-recent-first.  `none` means the block hit its except-branch (a missing
line item), leaving both `eps = None` and the earlier locals
`income`/`n_shares` possibly unbound. -/
def epsOf (bg edo : Stmt) : Option Series :=
  match edo.loc "Net Income Common Stockholders", bg.loc "Ordinary Shares Number" with
  | some income, some ns => some (sortDesc (alignWith (· / ·) income ns))
  | _, _ => none

/-- The price series built over `eps.index` (line 62-63), given that every
single-date lookup succeeded. -/
def pricesOf (market : List (Date × Val)) (eps : Series) : Series :=
  sortDesc (eps.map (fun p => (p.1, get_historical_price market p.1)))

/-- PER (lines 66-68): price over EPS, index-aligned, most-recent-first. -/
def perOf (prices eps : Series) : Series := sortDesc (alignWith (· / ·) prices eps)

/-- The EBITDA try-block (lines 75-83): the statement line, sorted. -/
def ebitdaOf (edo : Stmt) : Option Series := (edo.loc "EBITDA").map sortDesc

/-- The PBV try-block (lines 84-92): price over book value per share.  In a
returned record the shares lookup has already succeeded (otherwise the call
raised), so the block fails exactly when the equity line is missing. -/
def pbvOf (bg : Stmt) (prices : Series) : Option Series :=
  match bg.loc "Common Stock Equity", bg.loc "Ordinary Shares Number" with
  | some equity, some ns =>
      some (sortDesc (alignWith (· / ·) prices (alignWith (· / ·) equity ns)))
  | _, _ => none

/-- The solvency try-block (lines 94-104): assets over current liabilities. -/
def solvencyOf (bg : Stmt) : Option Series :=
  match bg.loc "Total Assets", bg.loc "Current Liabilities" with
  | some assets, some liabilities =>
      some (sortDesc (alignWith (· / ·) assets liabilities))
  | _, _ => none

/-- The ROE try-block (lines 106-115): income over equity, times 100. -/
def roeOf (bg edo : Stmt) : Option Series :=
  match edo.loc "Net Income Common Stockholders", bg.loc "Common Stock Equity" with
  | some income, some equity =>
      some (sortDesc ((alignWith (· / ·) income equity).map
        (fun p => (p.1, p.2.map (· * 100)))))
  | _, _ => none

/-- The FCF try-block (lines 116-127): operating cash flow plus depreciation
and amortization, minus working capital (assets minus current liabilities). -/
def fcfOf (bg cashflow : Stmt) : Option Series :=
  match cashflow.loc "Operating Cash Flow", cashflow.loc "Depreciation And Amortization",
        bg.loc "Total Assets", bg.loc "Current Liabilities" with
  | some cfo, some ncc, some assets, some liabilities =>
      some (sortDesc (alignWith (· - ·) (alignWith (· + ·) cfo ncc)
                       (alignWith (· - ·) assets liabilities)))
  | _, _, _, _ => none

def fundamental_analysis (t : Tkr) (use_quarterly : Bool) : FAResult :=
  let bg := (if use_quarterly then t.quarterly_balance_sheet else t.balance_sheet).dropLastCol
  let edo := (if use_quarterly then t.quarterly_income_stmt else t.incomestmt).dropLastCol
  let cashflow := if use_quarterly then t.quarterly_cashflow else t.cashflow
  if bg.size == 0 || edo.size == 0 || cashflow.size == 0 then
    .noData
  else
    match epsOf bg edo with
    | none => .exn
    | some eps =>
      if eps.all (fun p => (get_historical_price t.market p.1).isSome) then
        .ok { eps := some eps
              per := some (perOf (pricesOf t.market eps) eps)
              ebitda := ebitdaOf edo
              pbv := pbvOf bg (pricesOf t.market eps)
              solvency := solvencyOf bg
              roe := roeOf bg edo
              fcf := fcfOf bg cashflow
              prices := pricesOf t.market eps
              shares := bg.loc "Ordinary Shares Number"
              incomplete := (ebitdaOf edo).isNone || (pbvOf bg (pricesOf t.market eps)).isNone ||
                            (solvencyOf bg).isNone || (roeOf bg edo).isNone ||
                            (fcfOf bg cashflow).isNone }
      else
        .exn

/-- One row of the generated dataset (a RatioRecord): the columns of
`pd.DataFrame(result)` after `ticker`, `returns` and `date` are added. -/
structure Record where
  eps : Option Val
  per : Option Val
  ebitda : Option Val
  pbv : Option Val
  solvency : Option Val
  roe : Option Val
  fcf : Option Val
  prices : Option Val
  shares : Option Val
  returns : Option Val
  incomplete : Bool
  ticker : String
  date : Date
deriving DecidableEq

/-- Value of an optional ratio series at a date. -/
def valAt (s : Option Series) (d : Date) : Option Val :=
  match s with
  | some l => sget l d
  | none => none

/-- Row index of `pd.DataFrame(result)`: the union of the series indexes, in
dict order (which coincides with the pandas index when the indexes agree). -/
def rowDates (fa : FAOut) : List Date :=
  ((fa.eps.getD []).map Prod.fst ++ (fa.per.getD []).map Prod.fst ++
   (fa.ebitda.getD []).map Prod.fst ++ (fa.pbv.getD []).map Prod.fst ++
   (fa.solvency.getD []).map Prod.fst ++ (fa.roe.getD []).map Prod.fst ++
   (fa.fcf.getD []).map Prod.fst ++ fa.prices.map Prod.fst ++
   (fa.shares.getD []).map Prod.fst).dedup

/-- The row at one period date, before the `returns` column is filled in. -/
def baseRow (fa : FAOut) (ticker : String) (d : Date) : Record :=
  { eps := valAt fa.eps d, per := valAt fa.per d, ebitda := valAt fa.ebitda d,
    pbv := valAt fa.pbv d, solvency := valAt fa.solvency d, roe := valAt fa.roe d,
    fcf := valAt fa.fcf d, prices := sget fa.prices d, shares := valAt fa.shares d,
    returns := none, incomplete := fa.incomplete, ticker := ticker, date := d }

/-- `result["returns"] = result["prices"].pct_change()`: each row's return is
its (pad-filled) price over the previous row's, minus one; the first row and
rows before the first valid price get NaN. -/
def addReturns : Option Val → List Record → List Record
  | _, [] => []
  | prev, r :: rs =>
    let cur := r.prices.orElse (fun _ => prev)
    let ret := match prev, cur with
      | some p, some c => some (c / p - 1)
      | _, _ => none
    { r with returns := ret } :: addReturns cur rs

/-- The per-ticker rows of `pd.DataFrame(result)` with `ticker`, `returns` and
`date` attached (dataset_generator lines 161-166, before the dropna). -/
def buildRows (fa : FAOut) (ticker : String) : List Record :=
  addReturns none ((rowDates fa).map (baseRow fa ticker))

/-- The `dropna(how="all", subset=...)` predicate: the subset is every column
except `ticker` and `incomplete` (the `date` column does not exist yet), so a
row is kept iff at least one of its ten data cells is non-missing. -/
def hasData (r : Record) : Bool :=
  r.eps.isSome || r.per.isSome || r.ebitda.isSome || r.pbv.isSome ||
  r.solvency.isSome || r.roe.isSome || r.fcf.isSome || r.prices.isSome ||
  r.shares.isSome || r.returns.isSome

/-- A line of `results.csv`: a column-header line, the blank line written when
an empty frame is dumped, or a data row. -/
inductive Line
  | hdr
  | blank
  | row (r : Record)
deriving DecidableEq

/-- A line of `incomplete.csv`. -/
inductive ILine
  | ihdr
  | iblank
  | irow (t : String)
deriving DecidableEq

def Line.row? : Line → Option Record
  | .row r => some r
  | _ => none

/-- Number of column-header lines in `results.csv`. -/
def countHdr (l : List Line) : Nat :=
  (l.filter (fun x => match x with | .hdr => true | _ => false)).length

/-- The run environment: upstream data per ticker, plus an optional index from
which on every `to_csv` call fails (modelling disk-full / permission-denied;
write calls are numbered 0, 1, ... in execution order). -/
structure Env where
  data : String → Tkr
  writeFailsFrom : Option Nat

/-- Whether write call number `c` succeeds. -/
def writeOk (wf : Option Nat) (c : Nat) : Bool :=
  match wf with
  | none => true
  | some k => decide (c < k)

/-- The mutable state of one `dataset_generator` run. -/
structure GenState where
  results : List Record
  batch : List Record
  batchTouched : Bool
  incompleteList : List String
  resultsFile : List Line
  incompleteFile : List ILine
  writeCount : Nat
  flushedAfter : List Nat
  failedWrites : List Nat
deriving DecidableEq

/-- The flush block (lines 178-187): append the batch to `results.csv` (pandas
`to_csv(mode="a")` keeps its default `header=True`, so a non-empty batch frame
re-emits the column header), clear the batch, and, if the pending incomplete
list is non-empty, append it (with its own header) to `incomplete.csv` and
clear it.  A failing write raises; the raise is caught by the per-ticker
handler, so the steps after the raise do not run. -/
def flushStep (env : Env) (st : GenState) (pos : Nat) : GenState :=
  if writeOk env.writeFailsFrom st.writeCount then
    let st1 : GenState :=
      { st with
        resultsFile := st.resultsFile ++
          (if st.batchTouched then Line.hdr :: st.batch.map Line.row else [Line.blank])
        batch := []
        batchTouched := false
        writeCount := st.writeCount + 1
        flushedAfter := st.flushedAfter ++ [pos] }
    if st1.incompleteList.isEmpty then st1
    else if writeOk env.writeFailsFrom st1.writeCount then
      { st1 with
        incompleteFile := st1.incompleteFile ++ ILine.ihdr :: st1.incompleteList.map ILine.irow
        incompleteList := []
        writeCount := st1.writeCount + 1 }
    else
      { st1 with writeCount := st1.writeCount + 1,
                 failedWrites := st1.failedWrites ++ [st1.writeCount] }
  else
    { st with writeCount := st.writeCount + 1,
              failedWrites := st.failedWrites ++ [st.writeCount] }

/-- The state after lines 168-175 for a ticker with a returned record: the
incomplete bookkeeping (line 168), the concatenation of the kept rows into the
aggregate at line 171 and again at line 175, and into the batch at line 174. -/
def midState (st : GenState) (ticker : String) (kept : List Record) : GenState :=
  { st with
    incompleteList :=
      if kept.any (fun r => r.incomplete) then st.incompleteList ++ [ticker]
      else st.incompleteList
    results := st.results ++ kept ++ kept
    batch := st.batch ++ kept
    batchTouched := true }

/-- One iteration of the ticker loop (lines 157-192).  A `None` result makes
`result["prices"]` raise KeyError and an `exn` outcome is an exception from
`fundamental_analysis` itself; both are caught by the `except` at line 189
before any state was touched, so the ticker is skipped whole (flush included).
On a returned record the rows are built, filtered by the dropna, the state is
updated as in `midState`, and the flush runs when the position is a multiple
of 20 or last. -/
def tickerStep (env : Env) (n : Nat) (st : GenState) (i : Nat) (ticker : String) : GenState :=
  match fundamental_analysis (env.data ticker) false with
  | .noData => st
  | .exn => st
  | .ok fa =>
    let st1 := midState st ticker ((buildRows fa ticker).filter hasData)
    if (i + 1) % 20 == 0 || i + 1 == n then flushStep env st1 (i + 1) else st1

/-- The ticker loop. -/
def genLoop (env : Env) (n : Nat) : GenState → Nat → List String → GenState
  | st, _, [] => st
  | st, i, t :: ts => genLoop env n (tickerStep env n st i t) (i + 1) ts

theorem genLoop_cons (env : Env) (n : Nat) (st : GenState) (i : Nat) (t : String)
    (ts : List String) :
    genLoop env n st i (t :: ts) = genLoop env n (tickerStep env n st i t) (i + 1) ts := rfl

/-- State after the two run-start truncations (lines 146-152): both files hold
the blank line an empty frame dumps, and write calls 0 and 1 are spent. -/
def initState : GenState :=
  { results := [], batch := [], batchTouched := false, incompleteList := [],
    resultsFile := [Line.blank], incompleteFile := [ILine.iblank],
    writeCount := 2, flushedAfter := [], failedWrites := [] }

/-- `dataset_generator`: truncate the two outputs (uncaught on failure, hence
`none` = the process aborts), then run the loop; the final state's `results`
field is the returned aggregate. -/
def dataset_generator (env : Env) (tickers : List String) : Option GenState :=
  if writeOk env.writeFailsFrom 0 then
    if writeOk env.writeFailsFrom 1 then
      some (genLoop env tickers.length initState 0 tickers)
    else none
  else none

/-- The flush positions the spec predicts for a run of `len` tickers starting
at position `i` (1-based positions that are multiples of 20, plus the last). -/
def stepsFlushed (i n : Nat) : Nat → List Nat
  | 0 => []
  | len + 1 =>
    (if (i + 1) % 20 == 0 || i + 1 == n then [i + 1] else []) ++ stepsFlushed (i + 1) n len

/-- Flush positions for a whole run over `n` tickers. -/
def flushPositions (n : Nat) : List Nat := stepsFlushed 0 n n

/-! ### Concrete instrument data used by the witnesses and counterexamples -/

/-- Daily closes covering the three sample period dates. -/
def market3 : List (Date × Val) := [(10, 6), (20, 8), (30, 12)]

/-- Balance sheet with all required items, columns most-recent-first. -/
def bsG : Stmt :=
  { cols := [30, 20, 10],
    rows := [("Ordinary Shares Number", [some 10, some 10, some 10]),
             ("Common Stock Equity", [some 200, some 100, some 50]),
             ("Total Assets", [some 500, some 400, some 300]),
             ("Current Liabilities", [some 100, some 80, some 60])] }

/-- Income statement with all required items, columns most-recent-first. -/
def isG : Stmt :=
  { cols := [30, 20, 10],
    rows := [("Net Income Common Stockholders", [some 50, some 40, some 30]),
             ("EBITDA", [some 70, some 60, some 50])] }

/-- Cash-flow statement (not column-trimmed by the source) with the two
required items over the two analysed periods. -/
def cfG : Stmt :=
  { cols := [30, 20],
    rows := [("Operating Cash Flow", [some 90, some 80]),
             ("Depreciation And Amortization", [some 10, some 5])] }

/-- A ticker with complete, well-formed statements. -/
def tkrG : Tkr :=
  { balance_sheet := bsG, incomestmt := isG, cashflow := cfG,
    quarterly_balance_sheet := bsG, quarterly_income_stmt := isG,
    quarterly_cashflow := cfG, market := market3 }

/-- Same underlying data as `tkrG` but missing the balance-sheet line
`Ordinary Shares Number` (the spec's ticker "BBB" scenario). -/
def bsB : Stmt :=
  { cols := [30, 20, 10],
    rows := [("Common Stock Equity", [some 200, some 100, some 50]),
             ("Total Assets", [some 500, some 400, some 300]),
             ("Current Liabilities", [some 100, some 80, some 60])] }

def tkrBBB : Tkr :=
  { balance_sheet := bsB, incomestmt := isG, cashflow := cfG,
    quarterly_balance_sheet := bsB, quarterly_income_stmt := isG,
    quarterly_cashflow := cfG, market := market3 }

/-- A ticker whose balance sheet comes back entirely empty (spec's "CCC"). -/
def tkrCCC : Tkr :=
  { balance_sheet := ⟨[], []⟩, incomestmt := isG, cashflow := cfG,
    quarterly_balance_sheet := ⟨[], []⟩, quarterly_income_stmt := isG,
    quarterly_cashflow := cfG, market := market3 }

/-- The same statements as `tkrG` with the provider returning periods in
ascending date order. -/
def bsAsc : Stmt :=
  { cols := [10, 20, 30],
    rows := [("Ordinary Shares Number", [some 10, some 10, some 10]),
             ("Common Stock Equity", [some 50, some 100, some 200]),
             ("Total Assets", [some 300, some 400, some 500]),
             ("Current Liabilities", [some 60, some 80, some 100])] }

def isAsc : Stmt :=
  { cols := [10, 20, 30],
    rows := [("Net Income Common Stockholders", [some 30, some 40, some 50]),
             ("EBITDA", [some 50, some 60, some 70])] }

def cfAsc : Stmt :=
  { cols := [20, 30],
    rows := [("Operating Cash Flow", [some 80, some 90]),
             ("Depreciation And Amortization", [some 5, some 10])] }

def tkrAsc : Tkr :=
  { balance_sheet := bsAsc, incomestmt := isAsc, cashflow := cfAsc,
    quarterly_balance_sheet := bsAsc, quarterly_income_stmt := isAsc,
    quarterly_cashflow := cfAsc, market := market3 }

/-- Environment serving `tkrG` for every ticker, with reliable storage. -/
def envG : Env := { data := fun _ => tkrG, writeFailsFrom := none }

/-- Environment where ticker "GGG" is good and every other ticker returns an
empty balance sheet. -/
def envGB : Env := { data := fun t => if t = "GGG" then tkrG else tkrCCC, writeFailsFrom := none }

/-- Environment serving only empty balance sheets. -/
def envC : Env := { data := fun _ => tkrCCC, writeFailsFrom := none }

/-- Environment serving only the shares-less ticker. -/
def envB : Env := { data := fun _ => tkrBBB, writeFailsFrom := none }

/-- Reliable data, but the storage destination fails from write call 2 on,
i.e. the first in-loop flush (the two run-start truncations succeed). -/
def envFail : Env := { data := fun _ => tkrG, writeFailsFrom := some 2 }

/-- Storage fails from the very first write: the run-start truncation raises
outside any try/except and the process aborts. -/
def envAbort : Env := { data := fun _ => tkrG, writeFailsFrom := some 0 }

/-- Same data as `envG` on ticker "GGG" but different elsewhere. -/
def envAlt : Env := { data := fun t => if t = "GGG" then tkrG else tkrBBB, writeFailsFrom := none }

/-! ### Series lemmas -/

/-- Descending-key ordering between two series entries. -/
def descKey (x y : Date × Option Val) : Prop := y.1 ≤ x.1

theorem lookup_cons (k : Date) (v : Option Val) (l : Series) (d : Date) :
    List.lookup d ((k, v) :: l) = if d == k then some v else List.lookup d l := by
  cases h : d == k <;> simp [List.lookup, h]

theorem lookup_map_keys (g : Date → Option Val) (ks : List Date) (d : Date) :
    List.lookup d (ks.map (fun k => (k, g k))) = if d ∈ ks then some (g d) else none := by
  induction ks with
  | nil => simp [List.lookup]
  | cons k ks ih =>
    rw [List.map_cons, lookup_cons]
    by_cases h : d = k
    · subst h; simp
    · have hb : (d == k) = false := by simp [h]
      simp [hb, ih, h]

theorem lookup_eq_none_of_not_mem (s : Series) (d : Date) (h : d ∉ keysOf s) :
    List.lookup d s = none := by
  induction s with
  | nil => rfl
  | cons a s ih =>
    obtain ⟨k, v⟩ := a
    simp only [keysOf, List.map_cons, List.mem_cons, not_or] at h
    have hb : (d == k) = false := by simp [h.1]
    rw [lookup_cons, if_neg (by simp [hb])]
    exact ih (by simpa [keysOf] using h.2)

theorem sget_eq_none_of_not_mem (s : Series) (d : Date) (h : d ∉ keysOf s) :
    sget s d = none := by
  unfold sget
  rw [lookup_eq_none_of_not_mem s d h]
  rfl

/-- Value of an aligned combination at a date: the combination of the two
values at that same date. -/
theorem sget_alignWith (f : Val → Val → Val) (s t : Series) (d : Date) :
    sget (alignWith f s t) d = applyOpt f (sget s d) (sget t d) := by
  show (List.lookup d _).join = _
  unfold alignWith
  rw [lookup_map_keys]
  by_cases h : d ∈ (keysOf s ++ keysOf t).dedup
  · simp [h]
  · have hs : d ∉ keysOf s := fun hm => h (List.mem_dedup.mpr (List.mem_append.mpr (Or.inl hm)))
    have ht : d ∉ keysOf t := fun hm => h (List.mem_dedup.mpr (List.mem_append.mpr (Or.inr hm)))
    rw [if_neg h, sget_eq_none_of_not_mem s d hs, sget_eq_none_of_not_mem t d ht]
    rfl

theorem keysOf_alignWith (f : Val → Val → Val) (s t : Series) :
    keysOf (alignWith f s t) = (keysOf s ++ keysOf t).dedup := by
  show List.map Prod.fst (((keysOf s ++ keysOf t).dedup).map _) = _
  rw [List.map_map]
  have hcomp : (Prod.fst ∘ fun d : Date => (d, applyOpt f (sget s d) (sget t d))) = id := rfl
  rw [hcomp, List.map_id]

theorem nodup_keysOf_alignWith (f : Val → Val → Val) (s t : Series) :
    (keysOf (alignWith f s t)).Nodup := by
  rw [keysOf_alignWith]
  exact List.nodup_dedup _

theorem insertDesc_perm (a : Date × Option Val) (l : Series) :
    List.Perm (insertDesc a l) (a :: l) := by
  induction l with
  | nil => exact List.Perm.refl _
  | cons b l ih =>
    unfold insertDesc
    by_cases h : b.1 ≤ a.1
    · rw [if_pos h]
    · rw [if_neg h]
      exact (ih.cons b).trans (List.Perm.swap a b l)

theorem sortDesc_perm (s : Series) : List.Perm (sortDesc s) s := by
  induction s with
  | nil => exact List.Perm.refl _
  | cons a s ih =>
    show List.Perm (insertDesc a (sortDesc s)) (a :: s)
    exact (insertDesc_perm a (sortDesc s)).trans (ih.cons a)

theorem insertDesc_pairwise (a : Date × Option Val) (l : Series)
    (h : l.Pairwise descKey) : (insertDesc a l).Pairwise descKey := by
  induction l with
  | nil => simp [insertDesc, List.pairwise_cons]
  | cons b l ih =>
    rw [List.pairwise_cons] at h
    unfold insertDesc
    by_cases hba : b.1 ≤ a.1
    · rw [if_pos hba]
      refine List.pairwise_cons.mpr ⟨?_, List.pairwise_cons.mpr h⟩
      intro x hx
      rcases List.mem_cons.mp hx with rfl | hx
      · exact hba
      · exact le_trans (h.1 x hx) hba
    · rw [if_neg hba]
      refine List.pairwise_cons.mpr ⟨?_, ih h.2⟩
      intro x hx
      have hx2 : x ∈ a :: l := (insertDesc_perm a l).mem_iff.mp hx
      rcases List.mem_cons.mp hx2 with rfl | hx2
      · exact le_of_lt (lt_of_not_le hba)
      · exact h.1 x hx2

theorem sortDesc_pairwise (s : Series) : (sortDesc s).Pairwise descKey := by
  induction s with
  | nil => exact List.Pairwise.nil
  | cons a s ih => exact insertDesc_pairwise a (sortDesc s) ih

theorem sortedDescB_of_pairwise : ∀ l : Series, l.Pairwise descKey → sortedDescB l = true
  | [], _ => rfl
  | [_], _ => rfl
  | a :: b :: l, h => by
    rw [List.pairwise_cons] at h
    rw [sortedDescB, sortedDescB_of_pairwise (b :: l) h.2, Bool.and_true]
    exact decide_eq_true (h.1 b (by simp))

theorem sortedDescB_sortDesc (s : Series) : sortedDescB (sortDesc s) = true :=
  sortedDescB_of_pairwise _ (sortDesc_pairwise s)

theorem lookup_insertDesc (a : Date × Option Val) (l : Series) (d : Date)
    (h : a.1 ∉ keysOf l) : List.lookup d (insertDesc a l) = List.lookup d (a :: l) := by
  induction l with
  | nil => rfl
  | cons b l ih =>
    simp only [keysOf, List.map_cons, List.mem_cons, not_or] at h
    unfold insertDesc
    by_cases hba : b.1 ≤ a.1
    · rw [if_pos hba]
    · rw [if_neg hba]
      obtain ⟨ka, va⟩ := a
      obtain ⟨kb, vb⟩ := b
      rw [lookup_cons, ih (by simpa [keysOf] using h.2), lookup_cons, lookup_cons, lookup_cons]
      by_cases hda : d = ka
      · subst hda
        have hb : (d == kb) = false := by simp [h.1]
        simp [hb]
      · have hba2 : (d == ka) = false := by simp [hda]
        simp [hba2]

theorem lookup_sortDesc (s : Series) (h : (keysOf s).Nodup) (d : Date) :
    List.lookup d (sortDesc s) = List.lookup d s := by
  induction s with
  | nil => rfl
  | cons a s ih =>
    simp only [keysOf, List.map_cons, List.nodup_cons] at h
    have hmem : a.1 ∉ keysOf (sortDesc s) := by
      intro hm
      exact h.1 (by
        have h2 := ((sortDesc_perm s).map Prod.fst).mem_iff.mp hm
        simpa [keysOf] using h2)
    show List.lookup d (insertDesc a (sortDesc s)) = _
    rw [lookup_insertDesc a (sortDesc s) d hmem]
    obtain ⟨k, v⟩ := a
    rw [lookup_cons, lookup_cons, ih (by simpa [keysOf] using h.2)]

theorem sget_sortDesc (s : Series) (h : (keysOf s).Nodup) (d : Date) :
    sget (sortDesc s) d = sget s d := by
  unfold sget
  rw [lookup_sortDesc s h d]

/-! ### Ratio-block lemmas -/

theorem epsOf_sorted {bg edo : Stmt} {s : Series} (h : epsOf bg edo = some s) :
    sortedDescB s = true := by
  unfold epsOf at h
  split at h
  · have h2 := Option.some_inj.mp h
    subst h2
    exact sortedDescB_sortDesc _
  · cases h

theorem pricesOf_sorted (market : List (Date × Val)) (eps : Series) :
    sortedDescB (pricesOf market eps) = true := sortedDescB_sortDesc _

theorem perOf_sorted (prices eps : Series) : sortedDescB (perOf prices eps) = true :=
  sortedDescB_sortDesc _

theorem ebitdaOf_sorted {edo : Stmt} {s : Series} (h : ebitdaOf edo = some s) :
    sortedDescB s = true := by
  unfold ebitdaOf at h
  cases hloc : edo.loc "EBITDA" with
  | none => rw [hloc] at h; cases h
  | some x =>
    rw [hloc] at h
    have h2 := Option.some_inj.mp h
    subst h2
    exact sortedDescB_sortDesc _

theorem pbvOf_sorted {bg : Stmt} {prices : Series} {s : Series}
    (h : pbvOf bg prices = some s) : sortedDescB s = true := by
  unfold pbvOf at h
  split at h
  · have h2 := Option.some_inj.mp h
    subst h2
    exact sortedDescB_sortDesc _
  · cases h

theorem solvencyOf_sorted {bg : Stmt} {s : Series} (h : solvencyOf bg = some s) :
    sortedDescB s = true := by
  unfold solvencyOf at h
  split at h
  · have h2 := Option.some_inj.mp h
    subst h2
    exact sortedDescB_sortDesc _
  · cases h

theorem roeOf_sorted {bg edo : Stmt} {s : Series} (h : roeOf bg edo = some s) :
    sortedDescB s = true := by
  unfold roeOf at h
  split at h
  · have h2 := Option.some_inj.mp h
    subst h2
    exact sortedDescB_sortDesc _
  · cases h

theorem fcfOf_sorted {bg cashflow : Stmt} {s : Series} (h : fcfOf bg cashflow = some s) :
    sortedDescB s = true := by
  unfold fcfOf at h
  split at h
  · have h2 := Option.some_inj.mp h
    subst h2
    exact sortedDescB_sortDesc _
  · cases h

/-- The PER value at a date is the price at that date over the EPS at that
same date (pandas alignment). -/
theorem perOf_sget (prices eps : Series) (d : Date) :
    sget (perOf prices eps) d = applyOpt (· / ·) (sget prices d) (sget eps d) := by
  unfold perOf
  rw [sget_sortDesc _ (nodup_keysOf_alignWith _ _ _) d, sget_alignWith]

/-! ### Generator-loop lemmas -/

theorem countHdr_append (l1 l2 : List Line) : countHdr (l1 ++ l2) = countHdr l1 + countHdr l2 := by
  simp [countHdr, List.filter_append]

theorem countHdr_map_row (l : List Record) : countHdr (l.map Line.row) = 0 := by
  induction l with
  | nil => rfl
  | cons r l ih => simp [countHdr, List.filter] at ih ⊢

theorem countHdr_cons_hdr (x : List Line) : countHdr (Line.hdr :: x) = countHdr x + 1 := by
  simp [countHdr, List.filter]

theorem countHdr_chunk (b : List Record) : countHdr (Line.hdr :: b.map Line.row) = 1 := by
  rw [countHdr_cons_hdr, countHdr_map_row]

theorem countHdr_blank : countHdr [Line.blank] = 0 := rfl

theorem isOk_exists {x : FAResult} (h : x.isOk = true) : ∃ r, x = FAResult.ok r := by
  cases x with
  | noData => exact absurd h (by simp [FAResult.isOk])
  | exn => exact absurd h (by simp [FAResult.isOk])
  | ok r => exact ⟨r, rfl⟩

/-- Fields of a successful flush when storage never fails. -/
theorem flushStep_none (env : Env) (st : GenState) (pos : Nat)
    (hw : env.writeFailsFrom = none) :
    (flushStep env st pos).flushedAfter = st.flushedAfter ++ [pos] ∧
    countHdr (flushStep env st pos).resultsFile =
      countHdr st.resultsFile + (if st.batchTouched then 1 else 0) ∧
    (flushStep env st pos).batch = [] ∧
    (flushStep env st pos).incompleteList = [] ∧
    (flushStep env st pos).results = st.results := by
  have hok : ∀ c, writeOk env.writeFailsFrom c = true := by intro c; rw [hw]; rfl
  unfold flushStep
  rw [if_pos (hok st.writeCount)]
  by_cases he : st.incompleteList.isEmpty
  · rw [if_pos he]
    refine ⟨rfl, ?_, rfl, List.isEmpty_iff.mp he, rfl⟩
    by_cases ht : st.batchTouched
    · simp [ht, countHdr_append, countHdr_chunk]
    · simp [ht, countHdr_append, countHdr_blank]
  · rw [if_neg he, if_pos (hok (st.writeCount + 1))]
    refine ⟨rfl, ?_, rfl, rfl, rfl⟩
    by_cases ht : st.batchTouched
    · simp [ht, countHdr_append, countHdr_chunk]
    · simp [ht, countHdr_append, countHdr_blank]

/-- A ticker whose analysis does not return a record is skipped whole: the
exception is caught by the handler at line 189 before any state was touched. -/
theorem tickerStep_skip (env : Env) (n : Nat) (st : GenState) (i : Nat) (t : String)
    (h : (fundamental_analysis (env.data t) false).isOk = false) :
    tickerStep env n st i t = st := by
  unfold tickerStep
  cases hfa : fundamental_analysis (env.data t) false with
  | noData => rfl
  | exn => rfl
  | ok fa => rw [hfa] at h; exact absurd h (by simp [FAResult.isOk])

/-- A ticker with a returned record takes the `midState` update and then the
conditional flush. -/
theorem tickerStep_ok (env : Env) (n : Nat) (st : GenState) (i : Nat) (t : String)
    (fa : FAOut) (hfa : fundamental_analysis (env.data t) false = FAResult.ok fa) :
    tickerStep env n st i t =
      (if (i + 1) % 20 == 0 || i + 1 == n
       then flushStep env (midState st t ((buildRows fa t).filter hasData)) (i + 1)
       else midState st t ((buildRows fa t).filter hasData)) := by
  unfold tickerStep
  rw [hfa]

/-- Trace fields of one successful ticker iteration when storage never fails:
the flush fires exactly at positions that are multiples of 20 or last, emits
one header there, and clears both accumulators. -/
theorem tickerStep_none (env : Env) (n : Nat) (st : GenState) (i : Nat) (t : String)
    (hw : env.writeFailsFrom = none)
    (hok : (fundamental_analysis (env.data t) false).isOk = true) :
    (tickerStep env n st i t).flushedAfter =
      st.flushedAfter ++ (if (i + 1) % 20 == 0 || i + 1 == n then [i + 1] else []) ∧
    countHdr (tickerStep env n st i t).resultsFile =
      countHdr st.resultsFile + (if (i + 1) % 20 == 0 || i + 1 == n then 1 else 0) ∧
    (((i + 1) % 20 == 0 || i + 1 == n) = true →
      (tickerStep env n st i t).batch = [] ∧ (tickerStep env n st i t).incompleteList = []) := by
  obtain ⟨fa, hfa⟩ := isOk_exists hok
  rw [tickerStep_ok env n st i t fa hfa]
  by_cases hc : ((i + 1) % 20 == 0 || i + 1 == n) = true
  · rw [if_pos hc, if_pos hc, if_pos hc]
    have hf := flushStep_none env (midState st t ((buildRows fa t).filter hasData)) (i + 1) hw
    have hmid1 : (midState st t ((buildRows fa t).filter hasData)).flushedAfter =
        st.flushedAfter := rfl
    have hmid2 : (midState st t ((buildRows fa t).filter hasData)).resultsFile =
        st.resultsFile := rfl
    have hmid3 : (midState st t ((buildRows fa t).filter hasData)).batchTouched = true := rfl
    refine ⟨?_, ?_, fun _ => ⟨hf.2.2.1, hf.2.2.2.1⟩⟩
    · rw [hf.1, hmid1]
    · rw [hf.2.1, hmid2, hmid3, if_pos rfl]
  · rw [if_neg hc, if_neg hc, if_neg hc]
    refine ⟨by simp [midState], by simp [midState], fun h => absurd h hc⟩

/-- The loop's flush trace and header count over a run in which every ticker
returns a record and storage never fails. -/
theorem genLoop_allOk (env : Env) (hw : env.writeFailsFrom = none) :
    ∀ (ts : List String) (st : GenState) (i n : Nat),
      (∀ t ∈ ts, (fundamental_analysis (env.data t) false).isOk = true) →
      (genLoop env n st i ts).flushedAfter = st.flushedAfter ++ stepsFlushed i n ts.length ∧
      countHdr (genLoop env n st i ts).resultsFile =
        countHdr st.resultsFile + (stepsFlushed i n ts.length).length := by
  intro ts
  induction ts with
  | nil => intro st i n _; simp [genLoop, stepsFlushed]
  | cons t ts ih =>
    intro st i n hok
    have hokt : (fundamental_analysis (env.data t) false).isOk = true := hok t (by simp)
    have hokr : ∀ u ∈ ts, (fundamental_analysis (env.data u) false).isOk = true :=
      fun u hu => hok u (by simp [hu])
    have hstep := tickerStep_none env n st i t hw hokt
    have hrec := ih (tickerStep env n st i t) (i + 1) n hokr
    rw [genLoop_cons]
    constructor
    · rw [hrec.1, hstep.1, List.append_assoc]
      show _ = st.flushedAfter ++ stepsFlushed i n (ts.length + 1)
      rw [stepsFlushed]
    · rw [hrec.2, hstep.2.1]
      show _ = countHdr st.resultsFile + (stepsFlushed i n (ts.length + 1)).length
      rw [stepsFlushed]
      by_cases hc : ((i + 1) % 20 == 0 || i + 1 == n) = true
      · rw [if_pos hc, if_pos hc]
        simp [Nat.add_assoc, Nat.add_comm 1]
      · rw [if_neg hc, if_neg hc]
        simp

/-- After a run whose last ticker succeeds (and storage never fails), the final
flush has cleared both in-memory accumulators. -/
theorem genLoop_lastFlush (env : Env) (hw : env.writeFailsFrom = none) :
    ∀ (ts : List String) (st : GenState) (i n : Nat), ts ≠ [] → i + ts.length = n →
      (∀ t ∈ ts, (fundamental_analysis (env.data t) false).isOk = true) →
      (genLoop env n st i ts).batch = [] ∧ (genLoop env n st i ts).incompleteList = [] := by
  intro ts
  induction ts with
  | nil => intro st i n h; exact absurd rfl h
  | cons t ts ih =>
    intro st i n _ hlen hok
    have hokt : (fundamental_analysis (env.data t) false).isOk = true := hok t (by simp)
    cases ts with
    | nil =>
      show (tickerStep env n st i t).batch = [] ∧ (tickerStep env n st i t).incompleteList = []
      have hcond : ((i + 1) % 20 == 0 || i + 1 == n) = true := by
        have : i + 1 = n := by simpa using hlen
        simp [this]
      exact (tickerStep_none env n st i t hw hokt).2.2 hcond
    | cons t2 ts2 =>
      exact ih (tickerStep env n st i t) (i + 1) n (by simp)
        (by simp only [List.length_cons] at hlen ⊢; omega)
        (fun u hu => hok u (by simp [List.mem_cons] at hu ⊢; tauto))

/-- Every row emitted anywhere (aggregate, batch, results file) passed the
dropna filter. -/
def rowsOk (st : GenState) : Prop :=
  (∀ r ∈ st.results, hasData r = true) ∧ (∀ r ∈ st.batch, hasData r = true) ∧
  (∀ r : Record, Line.row r ∈ st.resultsFile → hasData r = true)

theorem row_mem_chunk {r : Record} {b : List Record}
    (h : Line.row r ∈ Line.hdr :: b.map Line.row) : r ∈ b := by
  rcases List.mem_cons.mp h with h | h
  · cases h
  · obtain ⟨x, hx, he⟩ := List.mem_map.mp h
    cases he
    exact hx

theorem rowsOk_flushStep (env : Env) (st : GenState) (pos : Nat) (h : rowsOk st) :
    rowsOk (flushStep env st pos) := by
  obtain ⟨h1, h2, h3⟩ := h
  unfold flushStep
  by_cases hok : writeOk env.writeFailsFrom st.writeCount = true
  · rw [if_pos hok]
    have hfile : ∀ r : Record,
        Line.row r ∈ st.resultsFile ++
          (if st.batchTouched then Line.hdr :: st.batch.map Line.row else [Line.blank]) →
        hasData r = true := by
      intro r hr
      rcases List.mem_append.mp hr with hr | hr
      · exact h3 r hr
      · by_cases ht : st.batchTouched
        · rw [if_pos ht] at hr
          exact h2 r (row_mem_chunk hr)
        · rw [if_neg ht] at hr
          simp at hr
      -- a blank line is not a row
    by_cases he : ({ st with
        resultsFile := st.resultsFile ++
          (if st.batchTouched then Line.hdr :: st.batch.map Line.row else [Line.blank]),
        batch := ([] : List Record), batchTouched := false,
        writeCount := st.writeCount + 1,
        flushedAfter := st.flushedAfter ++ [pos] } : GenState).incompleteList.isEmpty
    · rw [if_pos he]
      exact ⟨h1, (by intro r hr; cases hr), hfile⟩
    · rw [if_neg he]
      by_cases hok2 : writeOk env.writeFailsFrom (st.writeCount + 1) = true
      · rw [if_pos hok2]
        exact ⟨h1, (by intro r hr; cases hr), hfile⟩
      · rw [if_neg hok2]
        exact ⟨h1, (by intro r hr; cases hr), hfile⟩
  · rw [if_neg hok]
    exact ⟨h1, h2, h3⟩

theorem rowsOk_midState (st : GenState) (t : String) (kept : List Record)
    (h : rowsOk st) (hk : ∀ r ∈ kept, hasData r = true) : rowsOk (midState st t kept) := by
  obtain ⟨h1, h2, h3⟩ := h
  refine ⟨?_, ?_, h3⟩
  · intro r hr
    rcases List.mem_append.mp hr with hr | hr
    · rcases List.mem_append.mp hr with hr | hr
      · exact h1 r hr
      · exact hk r hr
    · exact hk r hr
  · intro r hr
    rcases List.mem_append.mp hr with hr | hr
    · exact h2 r hr
    · exact hk r hr

theorem rowsOk_tickerStep (env : Env) (n : Nat) (st : GenState) (i : Nat) (t : String)
    (h : rowsOk st) : rowsOk (tickerStep env n st i t) := by
  cases hfa : fundamental_analysis (env.data t) false with
  | noData => rw [tickerStep_skip env n st i t (by rw [hfa]; rfl)]; exact h
  | exn => rw [tickerStep_skip env n st i t (by rw [hfa]; rfl)]; exact h
  | ok fa =>
    rw [tickerStep_ok env n st i t fa hfa]
    have hk : ∀ r ∈ (buildRows fa t).filter hasData, hasData r = true :=
      fun r hr => (List.mem_filter.mp hr).2
    have hmid := rowsOk_midState st t ((buildRows fa t).filter hasData) h hk
    by_cases hc : ((i + 1) % 20 == 0 || i + 1 == n) = true
    · rw [if_pos hc]
      exact rowsOk_flushStep env _ (i + 1) hmid
    · rw [if_neg hc]
      exact hmid

theorem rowsOk_genLoop (env : Env) :
    ∀ (ts : List String) (st : GenState) (i n : Nat), rowsOk st →
      rowsOk (genLoop env n st i ts) := by
  intro ts
  induction ts with
  | nil => intro st i n h; exact h
  | cons t ts ih =>
    intro st i n h
    rw [genLoop_cons]
    exact ih (tickerStep env n st i t) (i + 1) n (rowsOk_tickerStep env n st i t h)

theorem rowsOk_initState : rowsOk initState := by
  refine ⟨?_, ?_, ?_⟩
  · intro r hr; cases hr
  · intro r hr; cases hr
  · intro r hr; simp [initState] at hr

theorem dataset_generator_some (env : Env) (ts : List String) (st : GenState)
    (h : dataset_generator env ts = some st) :
    st = genLoop env ts.length initState 0 ts := by
  unfold dataset_generator at h
  by_cases h0 : writeOk env.writeFailsFrom 0 = true
  · rw [if_pos h0] at h
    by_cases h1 : writeOk env.writeFailsFrom 1 = true
    · rw [if_pos h1] at h
      exact (Option.some_inj.mp h).symm
    · rw [if_neg h1] at h; cases h
  · rw [if_neg h0] at h; cases h

/-- The flush depends on the environment only through the write-failure clock. -/
theorem flushStep_congr (env1 env2 : Env) (st : GenState) (pos : Nat)
    (hw : env1.writeFailsFrom = env2.writeFailsFrom) :
    flushStep env1 st pos = flushStep env2 st pos := by
  unfold flushStep
  rw [hw]

/-- One iteration depends on the environment only through this ticker's data
and the write-failure clock. -/
theorem tickerStep_congr (env1 env2 : Env) (n : Nat) (st : GenState) (i : Nat) (t : String)
    (hd : env1.data t = env2.data t) (hw : env1.writeFailsFrom = env2.writeFailsFrom) :
    tickerStep env1 n st i t = tickerStep env2 n st i t := by
  have hfs : flushStep env1 = flushStep env2 :=
    funext fun s => funext fun p => flushStep_congr env1 env2 s p hw
  unfold tickerStep
  rw [hd, hfs]

theorem genLoop_congr (env1 env2 : Env) (hw : env1.writeFailsFrom = env2.writeFailsFrom) :
    ∀ (ts : List String) (st : GenState) (i n : Nat),
      (∀ t ∈ ts, env1.data t = env2.data t) →
      genLoop env1 n st i ts = genLoop env2 n st i ts := by
  intro ts
  induction ts with
  | nil => intro st i n _; rfl
  | cons t ts ih =>
    intro st i n hd
    rw [genLoop_cons, genLoop_cons, tickerStep_congr env1 env2 n st i t (hd t (by simp)) hw,
        ih _ (i + 1) n (fun u hu => hd u (by simp [hu]))]

/-! ### Claim theorems -/

/-- Claim C8: for a (date-ascending) market data set, `get_historical_price`
returns the close of the first available trading day at or after the target
date within the window `[start, start+4)`, and signals unavailability (`none`,
the IndexError) when the window holds no trading data. -/
theorem C8_price_resolver (market : List (Date × Val)) (start : Date)
    (hs : market.Pairwise (fun p q => p.1 < q.1)) :
    ((∀ p ∈ market, ¬(start ≤ p.1 ∧ p.1 < start + 4)) →
       get_historical_price market start = none) ∧
    (∀ p ∈ market, start ≤ p.1 → p.1 < start + 4 →
      ∃ q ∈ market, start ≤ q.1 ∧ q.1 < start + 4 ∧
        get_historical_price market start = some q.2 ∧
        ∀ p2 ∈ market, start ≤ p2.1 → p2.1 < start + 4 → q.1 ≤ p2.1) := by
  constructor
  · intro hnone
    have hf : market.filter (fun p => decide (start ≤ p.1) && decide (p.1 < start + 4)) = [] := by
      rw [List.filter_eq_nil_iff]
      intro p hp hc
      simp only [Bool.and_eq_true, decide_eq_true_eq] at hc
      exact hnone p hp hc
    unfold get_historical_price
    rw [hf]
    rfl
  · intro p hp h1 h2
    have hpf : p ∈ market.filter (fun p => decide (start ≤ p.1) && decide (p.1 < start + 4)) :=
      List.mem_filter.mpr ⟨hp, by simp [h1, h2]⟩
    have hpair : (market.filter
        (fun p => decide (start ≤ p.1) && decide (p.1 < start + 4))).Pairwise
        (fun p q => p.1 < q.1) := hs.sublist (List.filter_sublist _)
    cases hfq : market.filter (fun p => decide (start ≤ p.1) && decide (p.1 < start + 4)) with
    | nil => rw [hfq] at hpf; cases hpf
    | cons q rest =>
      have hqm := List.mem_filter.mp (hfq ▸ List.mem_cons_self q rest)
      have hq1 : start ≤ q.1 ∧ q.1 < start + 4 := by
        have := hqm.2
        simpa using this
      refine ⟨q, hqm.1, hq1.1, hq1.2, ?_, ?_⟩
      · unfold get_historical_price
        rw [hfq]
        rfl
      · intro p2 hp2 hs2 hw2
        have hp2f : p2 ∈ market.filter
            (fun p => decide (start ≤ p.1) && decide (p.1 < start + 4)) :=
          List.mem_filter.mpr ⟨hp2, by simp [hs2, hw2]⟩
        rw [hfq] at hp2f hpair
        rcases List.mem_cons.mp hp2f with h | hmem
        · rw [h]
        · exact le_of_lt ((List.pairwise_cons.mp hpair).1 p2 hmem)

/-- Witness for C8: a market trading on days 5 and 9, queried for day 3. -/
theorem C8_witness :
    ((∀ p ∈ ([(5, (10 : Val)), (9, 20)] : List (Date × Val)), ¬(3 ≤ p.1 ∧ p.1 < 3 + 4)) →
       get_historical_price [(5, 10), (9, 20)] 3 = none) ∧
    (∀ p ∈ ([(5, (10 : Val)), (9, 20)] : List (Date × Val)), 3 ≤ p.1 → p.1 < 3 + 4 →
      ∃ q ∈ ([(5, (10 : Val)), (9, 20)] : List (Date × Val)), 3 ≤ q.1 ∧ q.1 < 3 + 4 ∧
        get_historical_price [(5, 10), (9, 20)] 3 = some q.2 ∧
        ∀ p2 ∈ ([(5, (10 : Val)), (9, 20)] : List (Date × Val)),
          3 ≤ p2.1 → p2.1 < 3 + 4 → q.1 ≤ p2.1) :=
  C8_price_resolver [(5, 10), (9, 20)] 3 (by decide)

/-- Claim C1 (code bug): for a ticker with non-empty statements missing exactly
the line item "Ordinary Shares Number" (the spec's ticker "BBB" scenario), the
independent ratios are not delivered and no incomplete flag is recorded.
The EPS block's failure leaves the local `prices` unbound; the PER
except-branch rebinds only `per`, so the `return` raises UnboundLocalError,
the generator's handler skips the ticker, and zero records and no
incomplete-log entry are produced — contradicting the claim that EBITDA,
solvency, ROE and FCF are still present with `incomplete` set. -/
theorem C1_code_bug :
    fundamental_analysis tkrBBB false = FAResult.exn ∧
    (dataset_generator envB ["BBB"]).map
      (fun st => (st.results, st.incompleteList, st.incompleteFile)) =
      some ([], [], [ILine.iblank]) := by
  exact ⟨by decide, by decide⟩

/-- Claim C2 counterexample: ticker "CCC" with an entirely empty balance sheet
produces zero records and the run continues, but — contrary to the claim —
"CCC" is never appended to the incomplete log: the `None` analysis result makes
`result["prices"]` raise KeyError before the incomplete bookkeeping runs. -/
theorem C2_counterexample :
    (dataset_generator envC ["CCC"]).map
      (fun st => (st.results, st.incompleteList, st.incompleteFile)) =
      some ([], [], [ILine.iblank]) := by decide

/-- Claim C2 amended: a ticker with an empty statement contributes zero
RatioRecords and processing continues with the next ticker, but the ticker is
not appended to the incomplete-tickers log (the loop state is unchanged). -/
theorem C2_amended (env : Env) (n : Nat) (st : GenState) (i : Nat) (t : String)
    (rest : List String)
    (h : fundamental_analysis (env.data t) false = FAResult.noData) :
    tickerStep env n st i t = st ∧
    genLoop env n st i (t :: rest) = genLoop env n st (i + 1) rest := by
  have hskip : tickerStep env n st i t = st :=
    tickerStep_skip env n st i t (by rw [h]; rfl)
  exact ⟨hskip, by rw [genLoop_cons, hskip]⟩

/-- Witness for C2 at the concrete empty-balance-sheet ticker. -/
theorem C2_witness :
    tickerStep envC 1 initState 0 "CCC" = initState ∧
    genLoop envC 1 initState 0 ["CCC"] = genLoop envC 1 initState 1 [] :=
  C2_amended envC 1 initState 0 "CCC" [] (by decide)

/-- Claim C3 counterexample: over ["GGG", "CCC"], records are produced for the
first ticker but the failing last ticker raises before its flush block, so no
flush ever happens — contradicting "after the last ticker regardless of
count". -/
theorem C3_counterexample :
    (dataset_generator envGB ["GGG", "CCC"]).map
      (fun st => (st.flushedAfter, st.resultsFile, st.results.isEmpty)) =
      some ([], [Line.blank], false) := by decide

/-- Claim C3 amended: provided every ticker of the list yields a returned
record (no per-ticker exception) and no write fails, flushes happen exactly
after the positions that are multiples of 20 and after the last position, and
the final flush leaves both in-memory accumulators cleared. -/
theorem C3_amended (env : Env) (ts : List String)
    (hw : env.writeFailsFrom = none)
    (hok : ∀ t ∈ ts, (fundamental_analysis (env.data t) false).isOk = true) :
    (dataset_generator env ts).map (fun st => st.flushedAfter) =
      some (flushPositions ts.length) ∧
    (ts ≠ [] →
      (dataset_generator env ts).map (fun st => (st.batch, st.incompleteList)) =
        some (([] : List Record), ([] : List String))) := by
  have hgen : dataset_generator env ts = some (genLoop env ts.length initState 0 ts) := by
    unfold dataset_generator
    rw [hw]
    rfl
  constructor
  · rw [hgen, Option.map_some']
    congr 1
    rw [(genLoop_allOk env hw ts initState 0 ts.length hok).1]
    show [] ++ stepsFlushed 0 ts.length ts.length = flushPositions ts.length
    rw [List.nil_append]
    rfl
  · intro hne
    rw [hgen, Option.map_some']
    have h := genLoop_lastFlush env hw ts initState 0 ts.length hne (Nat.zero_add _) hok
    rw [h.1, h.2]

/-- Witness for C3: the 45-ticker run flushes exactly after 20, 40 and 45. -/
theorem C3_witness :
    (dataset_generator envG (List.replicate 45 "GGG")).map (fun st => st.flushedAfter) =
      some [20, 40, 45] ∧
    (dataset_generator envG (List.replicate 45 "GGG")).map
      (fun st => (st.batch, st.incompleteList)) =
      some (([] : List Record), ([] : List String)) := by
  have h := C3_amended envG (List.replicate 45 "GGG") rfl (by decide)
  refine ⟨?_, h.2 (by decide)⟩
  rw [h.1]
  decide

/-- Claim C4 counterexample: a fully successful 21-ticker run flushes twice
and the results file holds two header lines, not one — `to_csv(mode="a")`
keeps its default `header=True` at every flush. -/
theorem C4_counterexample :
    (dataset_generator envG (List.replicate 21 "GGG")).map
      (fun st => countHdr st.resultsFile) = some 2 := by decide

/-- Claim C4 amended: the run-start truncation writes no header (the frame is
empty), and every executed flush re-emits the column header, so across a fully
successful run the header appears once per flush — not exactly once per run. -/
theorem C4_amended (env : Env) (ts : List String)
    (hw : env.writeFailsFrom = none)
    (hok : ∀ t ∈ ts, (fundamental_analysis (env.data t) false).isOk = true) :
    (dataset_generator env ts).map (fun st => countHdr st.resultsFile) =
      some (flushPositions ts.length).length := by
  have hgen : dataset_generator env ts = some (genLoop env ts.length initState 0 ts) := by
    unfold dataset_generator
    rw [hw]
    rfl
  rw [hgen, Option.map_some']
  congr 1
  rw [(genLoop_allOk env hw ts initState 0 ts.length hok).2]
  show countHdr [Line.blank] + _ = _
  rw [countHdr_blank, Nat.zero_add]
  rfl

/-- Witness for C4 at the 21-ticker run (two flushes, hence two headers). -/
theorem C4_witness :
    (dataset_generator envG (List.replicate 21 "GGG")).map
      (fun st => countHdr st.resultsFile) =
      some (flushPositions (List.replicate 21 "GGG").length).length :=
  C4_amended envG (List.replicate 21 "GGG") rfl (by decide)

/-- Claim C5 (code bug): the aggregate returned at the end of the run holds
every produced RatioRecord twice — lines 171 and 175 both concatenate the
ticker's rows into `results` — while the flushed file holds each record once.
For the single good ticker, 2 records are produced: the file gets 2 rows, the
returned aggregate has length 4 and its first half equals its second half. -/
theorem C5_code_bug :
    (dataset_generator envG ["GGG"]).map
      (fun st => (st.results.length, (st.resultsFile.filterMap Line.row?).length,
                  decide (st.results.take 2 = st.results.drop 2))) =
      some (4, 2, true) := by decide

/-- Claim C6 counterexample: with an ascending-order provider the returned
`shares` series keeps the provider order (dates [10, 20], not most-recent
first), and the two provider orderings do not give identical outputs: the
trimmed `iloc[:, :-1]` column differs, so even the EPS period set differs. -/
theorem C6_counterexample :
    (fundamental_analysis tkrAsc false).out?.map
      (fun r => ((r.shares.getD []).map Prod.fst, sortedDescB (r.shares.getD []),
                 (r.eps.getD []).map Prod.fst)) =
      some ([10, 20], false, [20, 10]) ∧
    (fundamental_analysis tkrAsc false).out?.map (fun r => (r.eps.getD []).map Prod.fst) ≠
      (fundamental_analysis tkrG false).out?.map (fun r => (r.eps.getD []).map Prod.fst) := by
  exact ⟨by decide, by decide⟩

/-- Claim C6 amended: in every returned record the ratio series (EPS, PER,
EBITDA, PBV, solvency, ROE, FCF) and the price series are each in canonical
most-recent-first order, and cross-series combination aligns values by period
date — the PER value at a date is the price at that same date over the EPS at
that same date.  The `shares` series, however, keeps the provider's order, and
outputs are not identical across provider orderings (see the counterexample). -/
theorem C6_amended (t : Tkr) (r : FAOut)
    (h : fundamental_analysis t false = FAResult.ok r) :
    (∀ s, r.eps = some s → sortedDescB s = true) ∧
    (∀ s, r.per = some s → sortedDescB s = true) ∧
    (∀ s, r.ebitda = some s → sortedDescB s = true) ∧
    (∀ s, r.pbv = some s → sortedDescB s = true) ∧
    (∀ s, r.solvency = some s → sortedDescB s = true) ∧
    (∀ s, r.roe = some s → sortedDescB s = true) ∧
    (∀ s, r.fcf = some s → sortedDescB s = true) ∧
    sortedDescB r.prices = true ∧
    (∀ s d, r.per = some s →
      sget s d = applyOpt (· / ·) (sget r.prices d) (sget (r.eps.getD []) d)) := by
  simp only [fundamental_analysis, Bool.false_eq_true, if_false] at h
  split at h
  · cases h
  · split at h
    · cases h
    · rename_i eps heps
      split at h
      · injection h with h
        subst h
        refine ⟨?_, ?_, ?_, ?_, ?_, ?_, ?_, pricesOf_sorted _ _, ?_⟩
        · intro s hs
          have hs2 := Option.some_inj.mp hs
          subst hs2
          exact epsOf_sorted heps
        · intro s hs
          have hs2 := Option.some_inj.mp hs
          subst hs2
          exact perOf_sorted _ _
        · intro s hs
          exact ebitdaOf_sorted hs
        · intro s hs
          exact pbvOf_sorted hs
        · intro s hs
          exact solvencyOf_sorted hs
        · intro s hs
          exact roeOf_sorted hs
        · intro s hs
          exact fcfOf_sorted hs
        · intro s d hs
          have hs2 := Option.some_inj.mp hs
          subst hs2
          rw [perOf_sget]
          rfl
      · cases h

/-- Witness record for C6: the record returned for the good ticker. -/
def faG : FAOut :=
  (fundamental_analysis tkrG false).out?.getD
    { eps := none, per := none, ebitda := none, pbv := none, solvency := none,
      roe := none, fcf := none, prices := [], shares := none, incomplete := true }

/-- Witness for C6 at the good ticker's returned record. -/
theorem C6_witness :
    (∀ s, faG.eps = some s → sortedDescB s = true) ∧
    (∀ s, faG.per = some s → sortedDescB s = true) ∧
    (∀ s, faG.ebitda = some s → sortedDescB s = true) ∧
    (∀ s, faG.pbv = some s → sortedDescB s = true) ∧
    (∀ s, faG.solvency = some s → sortedDescB s = true) ∧
    (∀ s, faG.roe = some s → sortedDescB s = true) ∧
    (∀ s, faG.fcf = some s → sortedDescB s = true) ∧
    sortedDescB faG.prices = true ∧
    (∀ s d, faG.per = some s →
      sget s d = applyOpt (· / ·) (sget faG.prices d) (sget (faG.eps.getD []) d)) :=
  C6_amended tkrG faG (by decide)

/-- Claim C7 counterexample: with storage failing from write call 2 on, the
first in-loop flush raises, the exception is caught by the per-ticker handler,
and the run completes normally — a destination-storage failure that does not
abort the process. -/
theorem C7_counterexample :
    (dataset_generator envFail ["GGG"]).map
      (fun st => (st.failedWrites, st.results.length, st.resultsFile)) =
      some ([2], 4, [Line.blank]) := by decide

/-- Claim C7 amended: any failure while processing a single ticker is caught
and the ticker is skipped; a storage failure aborts the process only when it
hits the two run-start truncations (write calls 0 and 1, outside the
try/except) — flush-time storage failures are swallowed by the per-ticker
handler and the run continues to completion. -/
theorem C7_amended (env : Env) (ts : List String) :
    ((env.writeFailsFrom = some 0 ∨ env.writeFailsFrom = some 1) →
       dataset_generator env ts = none) ∧
    (∀ k, env.writeFailsFrom = some k → 2 ≤ k →
       (dataset_generator env ts).isSome = true) ∧
    (env.writeFailsFrom = none → (dataset_generator env ts).isSome = true) ∧
    (∀ (n : Nat) (st : GenState) (i : Nat) (t : String),
      (fundamental_analysis (env.data t) false).isOk = false →
      tickerStep env n st i t = st) := by
  refine ⟨?_, ?_, ?_, fun n st i t h => tickerStep_skip env n st i t h⟩
  · intro h
    unfold dataset_generator
    rcases h with h | h
    · rw [h]
      rfl
    · rw [h]
      rfl
  · intro k hk h2
    unfold dataset_generator
    rw [hk]
    have h0 : writeOk (some k) 0 = true := by
      simp only [writeOk, decide_eq_true_eq]
      omega
    have h1 : writeOk (some k) 1 = true := by
      simp only [writeOk, decide_eq_true_eq]
      omega
    rw [if_pos h0, if_pos h1]
    rfl
  · intro h
    unfold dataset_generator
    rw [h]
    rfl

/-- Witness for C7: an initial-truncation failure aborts; a flush-time failure
does not. -/
theorem C7_witness :
    dataset_generator envAbort [] = none ∧
    (dataset_generator envFail ["GGG"]).isSome = true :=
  ⟨(C7_amended envAbort []).1 (Or.inl rfl),
   (C7_amended envFail ["GGG"]).2.1 2 rfl (by decide)⟩

/-- Claim C9: the whole run — returned aggregate and both output files — is a
function of the providers' data on the listed tickers and the storage
behaviour; two runs over identical upstream data and reset destinations
produce identical outputs. -/
theorem C9_determinism (env1 env2 : Env) (ts : List String)
    (hd : ∀ t ∈ ts, env1.data t = env2.data t)
    (hw : env1.writeFailsFrom = env2.writeFailsFrom) :
    dataset_generator env1 ts = dataset_generator env2 ts := by
  unfold dataset_generator
  rw [hw, genLoop_congr env1 env2 hw ts initState 0 ts.length hd]

/-- Witness for C9: two environments that agree on "GGG" but differ on every
other ticker give identical runs over ["GGG"]. -/
theorem C9_witness : dataset_generator envAlt ["GGG"] = dataset_generator envG ["GGG"] :=
  C9_determinism envAlt envG ["GGG"] (by decide) rfl

/-- Claim C10: every RatioRecord that reaches the aggregate, the batch or the
results file passed the dropna filter, i.e. has at least one non-missing value
among its data columns (eps, per, ebitda, pbv, solvency, roe, fcf, prices,
shares, returns); a fiscal period whose data cells are all missing yields no
record at all. -/
theorem C10_invariant (env : Env) (ts : List String) (st : GenState)
    (h : dataset_generator env ts = some st) :
    (∀ r ∈ st.results, hasData r = true) ∧
    (∀ r ∈ st.batch, hasData r = true) ∧
    (∀ r : Record, Line.row r ∈ st.resultsFile → hasData r = true) := by
  have hst := dataset_generator_some env ts st h
  subst hst
  exact rowsOk_genLoop env ts initState 0 ts.length rowsOk_initState

/-- Final state of the one-good-ticker run, for the C10 witness. -/
def stG : GenState := (dataset_generator envG ["GGG"]).getD initState

/-- Witness for C10 at the concrete one-ticker run. -/
theorem C10_witness :
    (∀ r ∈ stG.results, hasData r = true) ∧
    (∀ r ∈ stG.batch, hasData r = true) ∧
    (∀ r : Record, Line.row r ∈ stG.resultsFile → hasData r = true) :=
  C10_invariant envG ["GGG"] stG (by decide)

end VI
